import Mathlib

/-!
Verification of the cutechess engine-session layer (`ChessEngine` in
`projects/lib/src/chessengine.cpp`) and of the Crazyhouse notation/hand
semantics (`projects/lib/src/board/crazyhouseboard.h`).

The session layer is embedded shallowly: the C++ object's mutable fields
become the fields of the `Engine` structure, each member function becomes a
Lean function `Engine → Engine`, observable side effects (lines written to
the I/O device, `ready()` signals, forfeit reports) become explicit fields.
Members of external collaborators that are not part of the reviewed sources
(`ChessPlayer::closeConnection`, `sendPing`, `sendQuit`, `sendOption`,
`EngineOption`) are modelled from the spec and are marked as such.
-/

namespace CuteChess

/-- The player states (`ChessPlayer::State`); the session layer only
distinguishes `NotStarted`, `Starting`, `Disconnected` and `FinishingGame`
from the other "active" states. -/
inductive PState where
  | NotStarted
  | Starting
  | Idle
  | Observing
  | Thinking
  | FinishingGame
  | Disconnected
deriving DecidableEq, Repr

/-- Modelled from the spec: one engine-declared tunable, `name` plus
`currentValue` plus a `validate(candidateValue) -> bool` predicate
(spec section 3, "Option"); the concrete `EngineOption` class is not part of
the reviewed sources. -/
structure EngineOption where
  name : String
  value : String
  validate : String → Bool

/-- The engine session state: the mutable fields of `ChessEngine` together
with the externally observable effect streams.

* `state` is `ChessPlayer`'s state, read through `state()` / `setState()`.
* `pinging` is `m_pinging`, `pingState` is `m_pingState` (the heartbeat
  baseline), `timerArmed` models whether the single-shot `m_pingTimer` is
  running.
* `writeBuffer` is `m_writeBuffer`, `optionBuffer` is `m_optionBuffer`,
  `options` is `m_options`.
* `stream` records every string passed to `m_ioDevice->write` in order;
  `streamOpen` models `m_ioDevice->isOpen()`; `listenerAttached` models the
  `readChannelFinished` connection.
* `readyCount` counts `emit ready()` occurrences; `forfeits` records each
  `emitForfeit` cause in order. -/
structure Engine where
  state : PState
  pinging : Bool
  pingState : PState
  timerArmed : Bool
  writeBuffer : List String
  optionBuffer : List (String × String)
  options : List EngineOption
  stream : List String
  streamOpen : Bool
  listenerAttached : Bool
  readyCount : Nat
  forfeits : List String

/-- `ChessEngine::write(data)`: drop when `Disconnected`; buffer when
`NotStarted` or a ping is outstanding; otherwise put `data` plus a newline
on the device (chessengine.cpp lines 240-257). -/
def write (e : Engine) (data : String) : Engine :=
  if e.state = PState.Disconnected then e
  else if e.state = PState.NotStarted ∨ e.pinging then
    { e with writeBuffer := e.writeBuffer ++ [data] }
  else
    { e with stream := e.stream ++ [data ++ "\n"] }

/-- `ChessEngine::flushWriteBuffer()`: a no-op while pinging or
`NotStarted`; otherwise every buffered line goes through `write` in order
and the buffer is cleared (lines 272-280). -/
def flushWriteBuffer (e : Engine) : Engine :=
  if e.pinging ∨ e.state = PState.NotStarted then e
  else
    let e1 := e.writeBuffer.foldl write e
    { e1 with writeBuffer := [] }

/-- `ChessEngine::ping()` (lines 188-199). The protocol-specific
`sendPing()` primitive is not part of the reviewed sources; its success is
modelled from the spec as the oracle argument `sendOk` ("no-op if ... the
underlying send-heartbeat primitive reports failure", spec section 4.2). -/
def ping (sendOk : Bool) (e : Engine) : Engine :=
  if e.pinging ∨ e.state = PState.NotStarted ∨ e.state = PState.Disconnected
      ∨ sendOk = false then e
  else
    { e with pinging := true, pingState := e.state, timerArmed := true }

/-- `ChessEngine::closeConnection()` (lines 167-181). The base call
`ChessPlayer::closeConnection()` is modelled from the spec: it performs the
`any active state → Disconnected` transition (spec section 4.1). The rest
follows the source: clear `m_pinging`, stop the timer, clear the write
buffer, emit `ready`, detach the `readChannelFinished` listener, close the
device. Idempotent on an already `Disconnected` session. -/
def closeConnection (e : Engine) : Engine :=
  if e.state = PState.Disconnected then e
  else
    { e with
      state := PState.Disconnected
      pinging := false
      timerArmed := false
      writeBuffer := []
      readyCount := e.readyCount + 1
      listenerAttached := false
      streamOpen := false }

/-- `ChessEngine::pong()` (lines 201-227): ignore a pong when no ping is
outstanding; otherwise stop the timer, clear `m_pinging`, flush the buffer;
when the state is `FinishingGame` either settle into `Idle` (baseline was
also `FinishingGame`) or re-ping and return without emitting `ready`;
otherwise emit `ready`. -/
def pong (sendOk : Bool) (e : Engine) : Engine :=
  if e.pinging = false then e
  else
    let e1 := flushWriteBuffer { e with timerArmed := false, pinging := false }
    if e1.state = PState.FinishingGame then
      if e1.pingState = PState.FinishingGame then
        { e1 with
          state := PState.Idle
          pingState := PState.Idle
          readyCount := e1.readyCount + 1 }
      else
        ping sendOk e1
    else
      { e1 with readyCount := e1.readyCount + 1 }

/-- `ChessEngine::onPingTimeout()` (lines 229-238): clear `m_pinging`,
discard the write buffer, close the connection, report a forfeit with
`Chess::Result::WinByStalledConnection` (the "stalled connection" cause). -/
def onPingTimeout (e : Engine) : Engine :=
  let e1 := closeConnection { e with pinging := false, writeBuffer := [] }
  { e1 with forfeits := e1.forfeits ++ ["stalled connection"] }

/-- `ChessEngine::getOption(name)` (lines 69-78): the first registered
option with the given name, if any. -/
def getOption : List EngineOption → String → Option EngineOption
  | [], _ => none
  | o :: os, n => if o.name = n then some o else getOption os n

/-- `EngineOption::setValue` on the option found by `getOption`: replace
the value of the first option with the given name. -/
def setOptionValue : List EngineOption → String → String → List EngineOption
  | [], _, _ => []
  | o :: os, n, v =>
    if o.name = n then { o with value := v } :: os
    else o :: setOptionValue os n v

/-- Modelled from the spec: the protocol-specific set-option command text
emitted by the virtual `sendOption(name, value)`, which is not part of the
reviewed sources; per spec section 4.4 it goes "through the write path". -/
def sendOptionCmd (name value : String) : String :=
  "setoption " ++ name ++ " " ++ value

/-- Modelled from the spec: `sendOption` emits the set-option command
through the write path (spec section 4.4). -/
def sendOption (e : Engine) (name value : String) : Engine :=
  write e (sendOptionCmd name value)

/-- `ChessEngine::setOption(name, value)` (lines 80-105): while `Starting`
or `NotStarted`, append the edit to `m_optionBuffer`; otherwise look the
option up (unknown name: diagnostic only), validate (invalid value:
diagnostic only), then store the value and send the command. -/
def setOption (e : Engine) (name value : String) : Engine :=
  if e.state = PState.Starting ∨ e.state = PState.NotStarted then
    { e with optionBuffer := e.optionBuffer ++ [(name, value)] }
  else
    match getOption e.options name with
    | none => e
    | some opt =>
      if opt.validate value = false then e
      else
        sendOption { e with options := setOptionValue e.options name value }
          name value

/-- `ChessEngine::onProtocolStart()` (lines 121-135): clear `m_pinging`,
set state `Idle`, flush the write buffer, replay every buffered option edit
through `setOption` in order, clear the edit buffer. -/
def onProtocolStart (e : Engine) : Engine :=
  let e1 := flushWriteBuffer { e with pinging := false, state := PState.Idle }
  let e2 := e1.optionBuffer.foldl (fun acc p => setOption acc p.1 p.2) e1
  { e2 with optionBuffer := [] }

/-- `ChessEngine::start()` (lines 107-119): only from `NotStarted`; clear
`m_pinging`, set state `Starting`, flush, start the protocol (external),
set `m_pinging`. -/
def start (e : Engine) : Engine :=
  if e.state = PState.NotStarted then
    let e1 := flushWriteBuffer { e with pinging := false, state := PState.Starting }
    { e1 with pinging := true }
  else e

/-- Modelled from the spec: the termination command sent by the virtual
`sendQuit()`, which is not part of the reviewed sources; per spec section 6
`quit()` "sends a termination command then marks Disconnected". -/
def sendQuit (e : Engine) : Engine :=
  { e with stream := e.stream ++ ["quit\n"] }

/-- `ChessEngine::quit()` (lines 282-290): a no-op when the device is not
open or the state is already `Disconnected`; otherwise detach the
`readChannelFinished` listener, send the termination command, set state
`Disconnected`. -/
def quit (e : Engine) : Engine :=
  if e.streamOpen = false ∨ e.state = PState.Disconnected then e
  else
    let e1 := sendQuit { e with listenerAttached := false }
    { e1 with state := PState.Disconnected }

/-- An edit `(name, value)` that the option registry accepts: some option
is registered under the name and its validator accepts the value. -/
def acceptsEdit (opts : List EngineOption) (p : String × String) : Prop :=
  ∃ o, getOption opts p.1 = some o ∧ o.validate p.2 = true

/-! ### Sample sessions used by the witnesses -/

/-- A declared "Hash" option that accepts every candidate value. -/
def sampleOption : EngineOption :=
  { name := "Hash", value := "32", validate := fun _ => true }

/-- An active session with a ping outstanding and one buffered line. -/
def sampleEngine : Engine :=
  { state := PState.Idle
    pinging := true
    pingState := PState.Idle
    timerArmed := true
    writeBuffer := ["post"]
    optionBuffer := []
    options := [sampleOption]
    stream := []
    streamOpen := true
    listenerAttached := true
    readyCount := 0
    forfeits := [] }

/-- A session whose connection has already been torn down. -/
def sampleClosed : Engine :=
  { sampleEngine with state := PState.Disconnected, pinging := false }

/-- A session that `start()` has moved to `Starting`, with an empty option
registry and pending-edit queue. -/
def sampleStarting : Engine :=
  { sampleEngine with
      state := PState.Starting
      pinging := false
      writeBuffer := []
      options := []
      optionBuffer := [] }

/-! ### The process-wide session id counter -/

/-- Construction and destruction events of `ChessEngine` objects, the two
places that touch the static counter `ChessEngine::m_count`. -/
inductive SessionEv where
  | construct
  | destruct
deriving DecidableEq, Repr

/-- The session ids handed out along a trace of constructions and
destructions, starting from counter value `c`: the constructor assigns
`m_id(m_count++)` (chessengine.cpp line 33) and the destructor performs
`--m_count` (line 50). -/
def runIds : Int → List SessionEv → List Int
  | _, [] => []
  | c, SessionEv.construct :: es => c :: runIds (c + 1) es
  | c, SessionEv.destruct :: es => runIds (c - 1) es

/-! ### Crazyhouse piece types, hands and notation -/

namespace Crazyhouse

/-- `WesternBoard` piece type codes, followed by the Crazyhouse promoted
piece types of crazyhouseboard.h lines 55-61 (`PromotedKnight = 7` through
`PromotedQueen = 10`). -/
def Pawn : Nat := 1

def Knight : Nat := 2

def Bishop : Nat := 3

def Rook : Nat := 4

def Queen : Nat := 5

def King : Nat := 6

def PromotedKnight : Nat := 7

def PromotedBishop : Nat := 8

def PromotedRook : Nat := 9

def PromotedQueen : Nat := 10

/-- Modelled from the spec: `CrazyhouseBoard::handPieceType` (declared at
crazyhouseboard.h line 64, body not among the reviewed sources). Per the
header's documentation of the promoted types ("All of these pieces where
promoted from pawns, and when they're captured they get demoted back to
pawns", lines 49-54) every promoted type demotes to `Pawn`; any other type
is its own hand type. -/
def handPieceType (pieceType : Nat) : Nat :=
  if 7 ≤ pieceType ∧ pieceType ≤ 10 then Pawn else pieceType

/-- The two sides of a game. -/
inductive Side where
  | white
  | black
deriving DecidableEq, Repr

/-- The opposing side. -/
def Side.opp : Side → Side
  | Side.white => Side.black
  | Side.black => Side.white

/-- A drop-capable board position: occupancy (side and piece type per
square) plus the per-side hand counts (spec section 3, "Board"). -/
structure ZhBoard where
  pieceAt : Nat → Option (Side × Nat)
  hand : Side → Nat → Nat

/-- Add one piece of type `t` to side `s`'s hand. -/
def addToHand (b : ZhBoard) (s : Side) (t : Nat) : ZhBoard :=
  { b with
    hand := fun s2 t2 => if s2 = s ∧ t2 = t then b.hand s2 t2 + 1 else b.hand s2 t2 }

/-- Remove one piece of type `t` from side `s`'s hand. -/
def removeFromHand (b : ZhBoard) (s : Side) (t : Nat) : ZhBoard :=
  { b with
    hand := fun s2 t2 => if s2 = s ∧ t2 = t then b.hand s2 t2 - 1 else b.hand s2 t2 }

/-- Modelled from the spec: the board-move part of
`CrazyhouseBoard::vMakeMove` (declared at crazyhouseboard.h lines 67-68,
body not among the reviewed sources). Per spec section 4.5 a captured
piece of original type `T` is added to the capturing side's hand as its
demoted form (`handPieceType T`), and the moving piece goes from `src` to
`tgt`. -/
def vMakeMove (b : ZhBoard) (src tgt : Nat) : ZhBoard :=
  match b.pieceAt src with
  | none => b
  | some mover =>
    let b1 :=
      match b.pieceAt tgt with
      | some (_, ct) => addToHand b mover.1 (handPieceType ct)
      | none => b
    { b1 with
      pieceAt := fun sq =>
        if sq = tgt then some mover
        else if sq = src then none
        else b1.pieceAt sq }

/-- Modelled from the spec: `CrazyhouseBoard::vUndoMove` for a board move
(declared at crazyhouseboard.h line 69, body not among the reviewed
sources). Per spec section 4.5, undoing a capture removes the demoted
piece from the capturing side's hand and restores the captured piece to
the board at its original type; `mover` and `captured` are the pieces
recorded when the move was made. -/
def vUndoMove (b : ZhBoard) (src tgt : Nat) (mover : Side × Nat)
    (captured : Option (Side × Nat)) : ZhBoard :=
  let b1 :=
    { b with
      pieceAt := fun sq =>
        if sq = src then some mover
        else if sq = tgt then captured
        else b.pieceAt sq }
  match captured with
  | some (_, ct) => removeFromHand b1 mover.1 (handPieceType ct)
  | none => b1

/-- A concrete position: a white rook on square 1 faces a black promoted
queen on square 2; both hands empty. -/
def zhSample : ZhBoard :=
  { pieceAt := fun sq =>
      if sq = 1 then some (Side.white, Rook)
      else if sq = 2 then some (Side.black, PromotedQueen)
      else none
    hand := fun _ _ => 0 }

/-- A move in the notation bridge's view: source square, target square and
promotion piece type, with squares numbered 1..64 and the off-board
sentinel 0 as a drop move's source (spec section 3, "Move"); for a drop,
the `promotion` slot carries the dropped piece type (the two encodings are
mutually exclusive). -/
structure Move where
  sourceSquare : Nat
  targetSquare : Nat
  promotion : Nat
deriving DecidableEq, Repr

/-- The file letter of a file index 0..7. -/
def fileChar : Nat → Char
  | 0 => 'a'
  | 1 => 'b'
  | 2 => 'c'
  | 3 => 'd'
  | 4 => 'e'
  | 5 => 'f'
  | 6 => 'g'
  | _ => 'h'

/-- The rank digit of a rank index 0..7. -/
def rankChar : Nat → Char
  | 0 => '1'
  | 1 => '2'
  | 2 => '3'
  | 3 => '4'
  | 4 => '5'
  | 5 => '6'
  | 6 => '7'
  | _ => '8'

/-- The two-character algebraic name of square `sq` (1..64). -/
def squareChars (sq : Nat) : List Char :=
  [fileChar ((sq - 1) % 8), rankChar ((sq - 1) / 8)]

/-- The file index encoded by a file letter. -/
def fileOfChar : Char → Option Nat
  | 'a' => some 0
  | 'b' => some 1
  | 'c' => some 2
  | 'd' => some 3
  | 'e' => some 4
  | 'f' => some 5
  | 'g' => some 6
  | 'h' => some 7
  | _ => none

/-- The rank index encoded by a rank digit. -/
def rankOfChar : Char → Option Nat
  | '1' => some 0
  | '2' => some 1
  | '3' => some 2
  | '4' => some 3
  | '5' => some 4
  | '6' => some 5
  | '7' => some 6
  | '8' => some 7
  | _ => none

/-- The square (1..64) named by a file letter and a rank digit. -/
def parseSquare (f r : Char) : Option Nat :=
  match fileOfChar f, rankOfChar r with
  | some fv, some rv => some (1 + fv + 8 * rv)
  | _, _ => none

/-- The upper-case piece letter of a droppable piece type (1..5). -/
def dropChar : Nat → Char
  | 1 => 'P'
  | 2 => 'N'
  | 3 => 'B'
  | 4 => 'R'
  | _ => 'Q'

/-- The droppable piece type of an upper-case piece letter. -/
def dropOfChar : Char → Option Nat
  | 'P' => some 1
  | 'N' => some 2
  | 'B' => some 3
  | 'R' => some 4
  | 'Q' => some 5
  | _ => none

/-- The lower-case promotion letter of a promotion piece type (2..5). -/
def promoChar : Nat → Char
  | 2 => 'n'
  | 3 => 'b'
  | 4 => 'r'
  | _ => 'q'

/-- The promotion piece type of a lower-case promotion letter. -/
def promoOfChar : Char → Option Nat
  | 'n' => some 2
  | 'b' => some 3
  | 'r' => some 4
  | 'q' => some 5
  | _ => none

/-- Modelled from the spec: `CrazyhouseBoard::lanMoveString` (declared at
crazyhouseboard.h line 65, body not among the reviewed sources), the
long-algebraic move text. A drop is the upper-case piece letter, `@`, and
the target square; a board move is source square then target square, with
an optional lower-case promotion letter appended. -/
def lanMoveChars (m : Move) : List Char :=
  if m.sourceSquare = 0 then
    [dropChar m.promotion, '@'] ++ squareChars m.targetSquare
  else
    squareChars m.sourceSquare ++ squareChars m.targetSquare ++
      (if m.promotion = 0 then [] else [promoChar m.promotion])

/-- The move text as a string. -/
def lanMoveString (m : Move) : String :=
  String.mk (lanMoveChars m)

/-- Modelled from the spec: `CrazyhouseBoard::moveFromLanString` (declared
at crazyhouseboard.h line 66, body not among the reviewed sources),
inverting `lanMoveChars`; text of any other shape is rejected. -/
def moveFromLanChars : List Char → Option Move
  | [a, b, c, d] =>
    if b = '@' then
      match dropOfChar a, parseSquare c d with
      | some pt, some t => some ⟨0, t, pt⟩
      | _, _ => none
    else
      match parseSquare a b, parseSquare c d with
      | some s, some t => some ⟨s, t, 0⟩
      | _, _ => none
  | [a, b, c, d, e] =>
    match parseSquare a b, parseSquare c d, promoOfChar e with
    | some s, some t, some pt => some ⟨s, t, pt⟩
    | _, _, _ => none
  | _ => none

/-- Decoding of a move string. -/
def moveFromLanString (s : String) : Option Move :=
  moveFromLanChars s.toList

/-- The well-formed moves: every legal move of any reachable position has
this shape (spec section 3, "Move" invariant) — either a drop (off-board
sentinel source, droppable piece type in the promotion slot) or a
board-to-board move with squares in 1..64 and an optional promotion. -/
def WellFormedMove (m : Move) : Prop :=
  (m.sourceSquare = 0 ∧ 1 ≤ m.targetSquare ∧ m.targetSquare ≤ 64 ∧
    1 ≤ m.promotion ∧ m.promotion ≤ 5) ∨
  (1 ≤ m.sourceSquare ∧ m.sourceSquare ≤ 64 ∧
    1 ≤ m.targetSquare ∧ m.targetSquare ≤ 64 ∧
    (m.promotion = 0 ∨ (2 ≤ m.promotion ∧ m.promotion ≤ 5)))

end Crazyhouse

/-! ### Frame lemmas for the write path -/

theorem write_frame (e : Engine) (d : String) :
    (write e d).state = e.state ∧ (write e d).pinging = e.pinging ∧
    (write e d).pingState = e.pingState ∧ (write e d).timerArmed = e.timerArmed ∧
    (write e d).optionBuffer = e.optionBuffer ∧ (write e d).options = e.options ∧
    (write e d).readyCount = e.readyCount ∧ (write e d).forfeits = e.forfeits ∧
    (write e d).streamOpen = e.streamOpen ∧
    (write e d).listenerAttached = e.listenerAttached := by
  unfold write
  by_cases h1 : e.state = PState.Disconnected <;> simp [h1]
  by_cases h2 : e.state = PState.NotStarted ∨ e.pinging <;> simp [h2]

theorem foldl_write_frame (ls : List String) : ∀ (e : Engine),
    ((ls.foldl write e).state = e.state ∧ (ls.foldl write e).pinging = e.pinging ∧
     (ls.foldl write e).pingState = e.pingState ∧
     (ls.foldl write e).timerArmed = e.timerArmed ∧
     (ls.foldl write e).optionBuffer = e.optionBuffer ∧
     (ls.foldl write e).options = e.options ∧
     (ls.foldl write e).readyCount = e.readyCount ∧
     (ls.foldl write e).forfeits = e.forfeits ∧
     (ls.foldl write e).streamOpen = e.streamOpen ∧
     (ls.foldl write e).listenerAttached = e.listenerAttached) := by
  induction ls with
  | nil => intro e; simp
  | cons d tl ih =>
    intro e
    obtain ⟨a1, a2, a3, a4, a5, a6, a7, a8, a9, a10⟩ := write_frame e d
    obtain ⟨b1, b2, b3, b4, b5, b6, b7, b8, b9, b10⟩ := ih (write e d)
    simp only [List.foldl_cons]
    exact ⟨b1.trans a1, b2.trans a2, b3.trans a3, b4.trans a4, b5.trans a5,
      b6.trans a6, b7.trans a7, b8.trans a8, b9.trans a9, b10.trans a10⟩

theorem flushWriteBuffer_frame (e : Engine) :
    (flushWriteBuffer e).state = e.state ∧
    (flushWriteBuffer e).pinging = e.pinging ∧
    (flushWriteBuffer e).pingState = e.pingState ∧
    (flushWriteBuffer e).timerArmed = e.timerArmed ∧
    (flushWriteBuffer e).optionBuffer = e.optionBuffer ∧
    (flushWriteBuffer e).options = e.options ∧
    (flushWriteBuffer e).readyCount = e.readyCount ∧
    (flushWriteBuffer e).forfeits = e.forfeits ∧
    (flushWriteBuffer e).streamOpen = e.streamOpen ∧
    (flushWriteBuffer e).listenerAttached = e.listenerAttached := by
  unfold flushWriteBuffer
  split
  · simp
  · obtain ⟨a1, a2, a3, a4, a5, a6, a7, a8, a9, a10⟩ :=
      foldl_write_frame e.writeBuffer e
    exact ⟨a1, a2, a3, a4, a5, a6, a7, a8, a9, a10⟩

theorem flushWriteBuffer_noop (e : Engine)
    (h : e.pinging = true ∨ e.state = PState.NotStarted) :
    flushWriteBuffer e = e := by
  rcases h with h | h <;> simp [flushWriteBuffer, h]

theorem foldl_write_sendable (ls : List String) : ∀ (e : Engine),
    e.pinging = false → e.state ≠ PState.NotStarted →
    e.state ≠ PState.Disconnected →
    (ls.foldl write e).stream = e.stream ++ ls.map (fun l => l ++ "\n") ∧
    (ls.foldl write e).writeBuffer = e.writeBuffer := by
  induction ls with
  | nil => intro e _ _ _; simp
  | cons d tl ih =>
    intro e h1 h2 h3
    have hw : write e d = { e with stream := e.stream ++ [d ++ "\n"] } := by
      simp [write, h1, h2, h3]
    simp only [List.foldl_cons, hw]
    obtain ⟨c1, c2⟩ := ih { e with stream := e.stream ++ [d ++ "\n"] } h1 h2 h3
    refine ⟨?_, c2⟩
    simp [c1]

theorem flushWriteBuffer_sendable (e : Engine) (h1 : e.pinging = false)
    (h2 : e.state ≠ PState.NotStarted) (h3 : e.state ≠ PState.Disconnected) :
    (flushWriteBuffer e).stream = e.stream ++ e.writeBuffer.map (fun l => l ++ "\n") ∧
    (flushWriteBuffer e).writeBuffer = [] := by
  unfold flushWriteBuffer
  rw [if_neg]
  · obtain ⟨c1, c2⟩ := foldl_write_sendable e.writeBuffer e h1 h2 h3
    exact ⟨c1, rfl⟩
  · simp [h1, h2]

@[simp] theorem flush_state (e : Engine) :
    (flushWriteBuffer e).state = e.state := (flushWriteBuffer_frame e).1

@[simp] theorem flush_pinging (e : Engine) :
    (flushWriteBuffer e).pinging = e.pinging := (flushWriteBuffer_frame e).2.1

@[simp] theorem flush_pingState (e : Engine) :
    (flushWriteBuffer e).pingState = e.pingState :=
  (flushWriteBuffer_frame e).2.2.1

@[simp] theorem flush_timerArmed (e : Engine) :
    (flushWriteBuffer e).timerArmed = e.timerArmed :=
  (flushWriteBuffer_frame e).2.2.2.1

@[simp] theorem flush_optionBuffer (e : Engine) :
    (flushWriteBuffer e).optionBuffer = e.optionBuffer :=
  (flushWriteBuffer_frame e).2.2.2.2.1

@[simp] theorem flush_options (e : Engine) :
    (flushWriteBuffer e).options = e.options :=
  (flushWriteBuffer_frame e).2.2.2.2.2.1

@[simp] theorem flush_readyCount (e : Engine) :
    (flushWriteBuffer e).readyCount = e.readyCount :=
  (flushWriteBuffer_frame e).2.2.2.2.2.2.1

@[simp] theorem flush_forfeits (e : Engine) :
    (flushWriteBuffer e).forfeits = e.forfeits :=
  (flushWriteBuffer_frame e).2.2.2.2.2.2.2.1

@[simp] theorem flush_streamOpen (e : Engine) :
    (flushWriteBuffer e).streamOpen = e.streamOpen :=
  (flushWriteBuffer_frame e).2.2.2.2.2.2.2.2.1

@[simp] theorem flush_listenerAttached (e : Engine) :
    (flushWriteBuffer e).listenerAttached = e.listenerAttached :=
  (flushWriteBuffer_frame e).2.2.2.2.2.2.2.2.2

/-! ### Claim theorems for the session layer -/

/-- C1: for every session with a heartbeat outstanding, when the heartbeat
timer fires (`onPingTimeout`) the session ends with awaiting-heartbeat
cleared, state `Disconnected`, an empty outbound command buffer, and
exactly one forfeiture report with cause "stalled connection". -/
theorem pingTimeout_fatal (e : Engine) (h : e.pinging = true) :
    (onPingTimeout e).pinging = false ∧
    (onPingTimeout e).state = PState.Disconnected ∧
    (onPingTimeout e).writeBuffer = [] ∧
    (onPingTimeout e).forfeits = e.forfeits ++ ["stalled connection"] := by
  unfold onPingTimeout closeConnection
  by_cases hd : e.state = PState.Disconnected <;> simp [hd]

/-- Witness for C1 at a concrete pinging session. -/
theorem pingTimeout_fatal_witness :
    (onPingTimeout sampleEngine).pinging = false ∧
    (onPingTimeout sampleEngine).state = PState.Disconnected ∧
    (onPingTimeout sampleEngine).writeBuffer = [] ∧
    (onPingTimeout sampleEngine).forfeits =
      sampleEngine.forfeits ++ ["stalled connection"] :=
  pingTimeout_fatal sampleEngine rfl

/-- C2: while a heartbeat ack is pending, `pong` behaves as follows.
If the current state is `FinishingGame` and the baseline snapshotted at
heartbeat time was also `FinishingGame`, the state transitions to `Idle`
and "ready" is emitted exactly once.  If the state is `FinishingGame` but
the baseline differs, a second heartbeat is issued at once (awaiting flag
set again, timer armed) and "ready" is not emitted by this call.  If the
current state is not `FinishingGame`, "ready" is emitted immediately and
the state is unchanged. -/
theorem pong_behavior (e : Engine) (h : e.pinging = true) :
    (e.state = PState.FinishingGame → e.pingState = PState.FinishingGame →
      (pong true e).state = PState.Idle ∧
      (pong true e).readyCount = e.readyCount + 1 ∧
      (pong true e).pinging = false) ∧
    (e.state = PState.FinishingGame → ¬ e.pingState = PState.FinishingGame →
      (pong true e).pinging = true ∧
      (pong true e).timerArmed = true ∧
      (pong true e).readyCount = e.readyCount) ∧
    (¬ e.state = PState.FinishingGame →
      (pong true e).state = e.state ∧
      (pong true e).readyCount = e.readyCount + 1) := by
  refine ⟨?_, ?_, ?_⟩
  · intro hs hb
    simp [pong, h, hs, hb]
  · intro hs hb
    simp [pong, ping, h, hs, hb]
  · intro hs
    simp [pong, h, hs]

/-- Witness for C2 at a concrete session finishing a game with an
unchanged baseline. -/
theorem pong_behavior_witness :
    (let e := { sampleEngine with
                  state := PState.FinishingGame
                  pingState := PState.FinishingGame }
     (e.state = PState.FinishingGame → e.pingState = PState.FinishingGame →
       (pong true e).state = PState.Idle ∧
       (pong true e).readyCount = e.readyCount + 1 ∧
       (pong true e).pinging = false) ∧
     (e.state = PState.FinishingGame → ¬ e.pingState = PState.FinishingGame →
       (pong true e).pinging = true ∧
       (pong true e).timerArmed = true ∧
       (pong true e).readyCount = e.readyCount) ∧
     (¬ e.state = PState.FinishingGame →
       (pong true e).state = e.state ∧
       (pong true e).readyCount = e.readyCount + 1)) :=
  pong_behavior
    { sampleEngine with
        state := PState.FinishingGame
        pingState := PState.FinishingGame } rfl

/-- C3: while the session is not sendable (state `NotStarted`, or a
heartbeat outstanding) and not `Disconnected`, every line handed to
`write` is appended to the outbound buffer in submission order and nothing
reaches the stream; a flush attempted in that situation is a no-op; and
the first flush performed once the blocking condition has cleared (any
state other than `NotStarted`/`Disconnected`, no ping outstanding) puts
exactly the buffered lines on the stream in submission order and empties
the buffer. -/
theorem deferred_writes (e : Engine) (lines : List String) (st : PState)
    (hd : e.state ≠ PState.Disconnected)
    (hq : e.state = PState.NotStarted ∨ e.pinging = true)
    (hst1 : st ≠ PState.NotStarted) (hst2 : st ≠ PState.Disconnected) :
    (lines.foldl write e).writeBuffer = e.writeBuffer ++ lines ∧
    (lines.foldl write e).stream = e.stream ∧
    flushWriteBuffer (lines.foldl write e) = lines.foldl write e ∧
    (flushWriteBuffer
        { lines.foldl write e with pinging := false, state := st }).stream
      = e.stream ++ (e.writeBuffer ++ lines).map (fun l => l ++ "\n") ∧
    (flushWriteBuffer
        { lines.foldl write e with pinging := false, state := st }).writeBuffer
      = [] := by
  have key : ∀ (ls : List String) (f : Engine), f.state ≠ PState.Disconnected →
      (f.state = PState.NotStarted ∨ f.pinging = true) →
      (ls.foldl write f).writeBuffer = f.writeBuffer ++ ls ∧
      (ls.foldl write f).stream = f.stream := by
    intro ls
    induction ls with
    | nil => intro f _ _; simp
    | cons d tl ih =>
      intro f hfd hfq
      have hw : write f d = { f with writeBuffer := f.writeBuffer ++ [d] } := by
        rcases hfq with hfq | hfq <;> simp [write, hfd, hfq]
      simp only [List.foldl_cons, hw]
      obtain ⟨c1, c2⟩ := ih { f with writeBuffer := f.writeBuffer ++ [d] } hfd hfq
      constructor
      · rw [c1]; simp
      · exact c2
  obtain ⟨k1, k2⟩ := key lines e hd hq
  obtain ⟨g1, g2, _, _, _, _, _, _, _, _⟩ := foldl_write_frame lines e
  have hnoop : flushWriteBuffer (lines.foldl write e) = lines.foldl write e := by
    apply flushWriteBuffer_noop
    rcases hq with hq | hq
    · exact Or.inr (g1.trans hq)
    · exact Or.inl (g2.trans hq)
  obtain ⟨s1, s2⟩ := flushWriteBuffer_sendable
    { lines.foldl write e with pinging := false, state := st } rfl hst1 hst2
  refine ⟨k1, k2, hnoop, ?_, s2⟩
  rw [s1]
  show (lines.foldl write e).stream ++ _ = _
  rw [k2, k1]

/-- Witness for C3: two lines written to a freshly created session
(state `NotStarted`), then flushed after it becomes `Idle`. -/
theorem deferred_writes_witness :
    (let e := { sampleEngine with
                  state := PState.NotStarted
                  pinging := false
                  writeBuffer := [] }
     let lines := ["uci", "isready"]
     ((lines.foldl write e).writeBuffer = e.writeBuffer ++ lines ∧
      (lines.foldl write e).stream = e.stream ∧
      flushWriteBuffer (lines.foldl write e) = lines.foldl write e ∧
      (flushWriteBuffer
          { lines.foldl write e with pinging := false, state := PState.Idle }).stream
        = e.stream ++ (e.writeBuffer ++ lines).map (fun l => l ++ "\n") ∧
      (flushWriteBuffer
          { lines.foldl write e with pinging := false, state := PState.Idle }).writeBuffer
        = [])) :=
  deferred_writes
    { sampleEngine with
        state := PState.NotStarted
        pinging := false
        writeBuffer := [] }
    ["uci", "isready"] PState.Idle
    (by simp) (Or.inl rfl) (by simp) (by simp)

/-- C5: `ping` is a no-op while already awaiting a heartbeat ack, when the
state is `NotStarted` or `Disconnected`, and when the send-heartbeat
primitive reports failure: the session (state, baseline, timer, outbound
buffer, everything) is returned unchanged. -/
theorem ping_noop (e : Engine) (sendOk : Bool)
    (h : e.pinging = true ∨ e.state = PState.NotStarted ∨
         e.state = PState.Disconnected ∨ sendOk = false) :
    ping sendOk e = e := by
  unfold ping
  rcases h with h | h | h | h <;> simp [h]

/-- Witness for C5: a second `ping` on a session already awaiting an ack. -/
theorem ping_noop_witness : ping true sampleEngine = sampleEngine :=
  ping_noop sampleEngine true (Or.inl rfl)

/-- C8: `write` on a `Disconnected` session is a silent no-op: the session
(in particular the outbound buffer and the stream) is unchanged and no
error is raised. -/
theorem write_disconnected_noop (e : Engine) (line : String)
    (h : e.state = PState.Disconnected) :
    write e line = e := by
  simp [write, h]

/-- Witness for C8 at a concrete closed session. -/
theorem write_disconnected_noop_witness :
    write sampleClosed "go" = sampleClosed :=
  write_disconnected_noop sampleClosed "go" rfl

/-- C10: on a session with an open stream that is not `Disconnected`,
`quit` sends the termination command and sets the state to `Disconnected`,
leaving the heartbeat timer, the awaiting-heartbeat flag, the outbound
buffer, the pending-option-edit queue and the stream's open status
untouched; consequently a heartbeat outstanding at `quit` time can still
fire its fatal timeout afterwards, clearing the buffer and emitting a
forfeiture report on the already-quit session. -/
theorem quit_frame (e : Engine) (ho : e.streamOpen = true)
    (hd : e.state ≠ PState.Disconnected) :
    (quit e).stream = e.stream ++ ["quit\n"] ∧
    (quit e).state = PState.Disconnected ∧
    (quit e).timerArmed = e.timerArmed ∧
    (quit e).pinging = e.pinging ∧
    (quit e).writeBuffer = e.writeBuffer ∧
    (quit e).optionBuffer = e.optionBuffer ∧
    (quit e).streamOpen = true ∧
    (e.pinging = true →
      (onPingTimeout (quit e)).writeBuffer = [] ∧
      (onPingTimeout (quit e)).forfeits = e.forfeits ++ ["stalled connection"] ∧
      (onPingTimeout (quit e)).state = PState.Disconnected) := by
  have hqe : quit e =
      { e with
        listenerAttached := false
        stream := e.stream ++ ["quit\n"]
        state := PState.Disconnected } := by
    simp [quit, sendQuit, ho, hd]
  rw [hqe]
  refine ⟨rfl, rfl, rfl, rfl, rfl, rfl, ho, ?_⟩
  intro _
  simp [onPingTimeout, closeConnection]

/-- Witness for C10 at a concrete open, pinging, `Idle` session. -/
theorem quit_frame_witness :
    (quit sampleEngine).stream = sampleEngine.stream ++ ["quit\n"] ∧
    (quit sampleEngine).state = PState.Disconnected ∧
    (quit sampleEngine).timerArmed = sampleEngine.timerArmed ∧
    (quit sampleEngine).pinging = sampleEngine.pinging ∧
    (quit sampleEngine).writeBuffer = sampleEngine.writeBuffer ∧
    (quit sampleEngine).optionBuffer = sampleEngine.optionBuffer ∧
    (quit sampleEngine).streamOpen = true ∧
    (sampleEngine.pinging = true →
      (onPingTimeout (quit sampleEngine)).writeBuffer = [] ∧
      (onPingTimeout (quit sampleEngine)).forfeits =
        sampleEngine.forfeits ++ ["stalled connection"] ∧
      (onPingTimeout (quit sampleEngine)).state = PState.Disconnected) :=
  quit_frame sampleEngine rfl (by simp [sampleEngine])

/-! ### Option registry lemmas and claim C4 -/

theorem acceptsEdit_setOptionValue (n v : String) (p : String × String) :
    ∀ (opts : List EngineOption), acceptsEdit opts p →
      acceptsEdit (setOptionValue opts n v) p := by
  intro opts
  induction opts with
  | nil => intro h; exact h.elim (by simp [getOption])
  | cons o os ih =>
    intro h
    obtain ⟨w, hw, hv⟩ := h
    by_cases h1 : o.name = p.1
    · rw [getOption, if_pos h1] at hw
      obtain rfl : o = w := Option.some.inj hw
      by_cases h2 : o.name = n
      · exact ⟨{ o with value := v },
          by simp [setOptionValue, getOption, h1, h2, h1.symm.trans h2], hv⟩
      · have hne : ¬ p.1 = n := fun hh => h2 (h1.trans hh)
        exact ⟨o, by simp [setOptionValue, getOption, h1, hne], hv⟩
    · rw [getOption, if_neg h1] at hw
      by_cases h2 : o.name = n
      · have hne : ¬ n = p.1 := fun hh => h1 (h2.trans hh)
        exact ⟨w, by simp [setOptionValue, getOption, h1, h2, hne, hw], hv⟩
      · obtain ⟨w2, hw2, hv2⟩ := ih ⟨w, hw, hv⟩
        exact ⟨w2, by simp [setOptionValue, getOption, h1, h2, hw2], hv2⟩

theorem foldl_setOption_idle (edits : List (String × String)) : ∀ (e : Engine),
    e.state = PState.Idle → e.pinging = false →
    (∀ p ∈ edits, acceptsEdit e.options p) →
    (edits.foldl (fun acc p => setOption acc p.1 p.2) e).stream
        = e.stream ++ edits.map (fun p => sendOptionCmd p.1 p.2 ++ "\n") ∧
    (edits.foldl (fun acc p => setOption acc p.1 p.2) e).state = PState.Idle ∧
    (edits.foldl (fun acc p => setOption acc p.1 p.2) e).pinging = false ∧
    (edits.foldl (fun acc p => setOption acc p.1 p.2) e).writeBuffer = e.writeBuffer ∧
    (edits.foldl (fun acc p => setOption acc p.1 p.2) e).optionBuffer = e.optionBuffer ∧
    (edits.foldl (fun acc p => setOption acc p.1 p.2) e).options
        = edits.foldl (fun os p => setOptionValue os p.1 p.2) e.options := by
  induction edits with
  | nil => intro e h1 h2 _; simp [h1, h2]
  | cons p tl ih =>
    intro e h1 h2 hacc
    obtain ⟨o, ho, hv⟩ := hacc p (List.mem_cons_self p tl)
    have hset : setOption e p.1 p.2 =
        { e with
          options := setOptionValue e.options p.1 p.2
          stream := e.stream ++ [sendOptionCmd p.1 p.2 ++ "\n"] } := by
      simp [setOption, h1, ho, hv, sendOption, write, h2]
    simp only [List.foldl_cons, hset]
    obtain ⟨c1, c2, c3, c4, c5, c6⟩ := ih
      { e with
        options := setOptionValue e.options p.1 p.2
        stream := e.stream ++ [sendOptionCmd p.1 p.2 ++ "\n"] }
      h1 h2
      (fun q hq => acceptsEdit_setOptionValue p.1 p.2 q e.options (hacc q (List.mem_cons_of_mem p hq)))
    refine ⟨?_, c2, c3, c4, c5, ?_⟩
    · rw [c1]; simp
    · rw [c6]

theorem foldl_setOption_buffering (edits : List (String × String)) : ∀ (e : Engine),
    (e.state = PState.Starting ∨ e.state = PState.NotStarted) →
    (edits.foldl (fun acc p => setOption acc p.1 p.2) e).optionBuffer
        = e.optionBuffer ++ edits ∧
    (edits.foldl (fun acc p => setOption acc p.1 p.2) e).stream = e.stream ∧
    (edits.foldl (fun acc p => setOption acc p.1 p.2) e).writeBuffer = e.writeBuffer ∧
    (edits.foldl (fun acc p => setOption acc p.1 p.2) e).state = e.state ∧
    (edits.foldl (fun acc p => setOption acc p.1 p.2) e).pinging = e.pinging ∧
    (edits.foldl (fun acc p => setOption acc p.1 p.2) e).options = e.options := by
  induction edits with
  | nil => intro e _; simp
  | cons p tl ih =>
    intro e hst
    have hset : setOption e p.1 p.2 =
        { e with optionBuffer := e.optionBuffer ++ [(p.1, p.2)] } := by
      rcases hst with hst | hst <;> simp [setOption, hst]
    simp only [List.foldl_cons, hset]
    obtain ⟨c1, c2, c3, c4, c5, c6⟩ := ih
      { e with optionBuffer := e.optionBuffer ++ [(p.1, p.2)] }
      (by rcases hst with hst | hst
          · exact Or.inl hst
          · exact Or.inr hst)
    refine ⟨?_, c2, c3, c4, c5, c6⟩
    rw [c1]; simp

/-- C4 counterexample: a session in `Starting` with an empty option
registry buffers the edit `("Hash", "128")`, yet after `onProtocolStart`
fires, no set-option command at all has been sent (the unknown name is
dropped with only a diagnostic), contradicting "exactly one set-option
command sent per edit". -/
theorem setOption_unknown_no_command :
    (setOption sampleStarting "Hash" "128").optionBuffer = [("Hash", "128")] ∧
    (onProtocolStart (setOption sampleStarting "Hash" "128")).stream = [] ∧
    (onProtocolStart (setOption sampleStarting "Hash" "128")).optionBuffer = [] :=
  ⟨rfl, rfl, rfl⟩

/-- C4 amended: `setOption` while the session has not left `Starting`
issues no protocol command: the edits go to the pending queue in
submission order; and — provided each pending edit names a declared option
whose validator accepts the value (unknown names and invalid values are
dropped with a diagnostic and send nothing) — the `Starting → Idle`
transition applies every pending edit in submission order exactly once,
sending exactly one set-option command per edit, after the flush of the
outbound buffer, and clears the pending queue. -/
theorem setOption_deferred (e : Engine) (edits : List (String × String))
    (hs : e.state = PState.Starting)
    (hb : e.optionBuffer = [])
    (hacc : ∀ p ∈ edits, acceptsEdit e.options p) :
    (edits.foldl (fun acc p => setOption acc p.1 p.2) e).stream = e.stream ∧
    (edits.foldl (fun acc p => setOption acc p.1 p.2) e).writeBuffer = e.writeBuffer ∧
    (edits.foldl (fun acc p => setOption acc p.1 p.2) e).optionBuffer = edits ∧
    (onProtocolStart (edits.foldl (fun acc p => setOption acc p.1 p.2) e)).stream
      = e.stream ++ e.writeBuffer.map (fun l => l ++ "\n")
          ++ edits.map (fun p => sendOptionCmd p.1 p.2 ++ "\n") ∧
    (onProtocolStart (edits.foldl (fun acc p => setOption acc p.1 p.2) e)).optionBuffer
      = [] ∧
    (onProtocolStart (edits.foldl (fun acc p => setOption acc p.1 p.2) e)).options
      = edits.foldl (fun os p => setOptionValue os p.1 p.2) e.options := by
  obtain ⟨b1, b2, b3, b4, b5, b6⟩ := foldl_setOption_buffering edits e (Or.inl hs)
  set e1 := edits.foldl (fun acc p => setOption acc p.1 p.2) e with he1
  rw [hb] at b1
  have hflush := flushWriteBuffer_sendable { e1 with pinging := false, state := PState.Idle }
    rfl (by simp) (by simp)
  set e2 := flushWriteBuffer { e1 with pinging := false, state := PState.Idle } with he2
  have h2state : e2.state = PState.Idle := by rw [he2]; simp
  have h2ping : e2.pinging = false := by rw [he2]; simp
  have h2buf : e2.optionBuffer = edits := by rw [he2]; simp [b1]
  have h2opts : e2.options = e.options := by rw [he2]; simp [b6]
  have h2stream : e2.stream = e.stream ++ e.writeBuffer.map (fun l => l ++ "\n") := by
    rw [hflush.1]
    simp [b2, b3]
  have hmain := foldl_setOption_idle edits e2 h2state h2ping
    (fun q hq => by rw [h2opts]; exact hacc q hq)
  obtain ⟨m1, _, _, _, m5, m6⟩ := hmain
  have hop : onProtocolStart e1 =
      { e2.optionBuffer.foldl (fun acc p => setOption acc p.1 p.2) e2 with
          optionBuffer := [] } := rfl
  refine ⟨b2, b3, by simp [b1], ?_, ?_, ?_⟩
  · rw [hop]
    show (e2.optionBuffer.foldl (fun acc p => setOption acc p.1 p.2) e2).stream = _
    rw [h2buf, m1, h2stream]
  · rw [hop]
  · rw [hop]
    show (e2.optionBuffer.foldl (fun acc p => setOption acc p.1 p.2) e2).options = _
    rw [h2buf, m6, h2opts]

/-- Witness for the amended C4: one pending edit naming the declared
"Hash" option, applied after `onProtocolStart`. -/
theorem setOption_deferred_witness :
    (let e := { sampleEngine with
                  state := PState.Starting
                  pinging := false
                  writeBuffer := ["init"]
                  optionBuffer := [] }
     let edits := [("Hash", "128")]
     ((edits.foldl (fun acc p => setOption acc p.1 p.2) e).stream = e.stream ∧
      (edits.foldl (fun acc p => setOption acc p.1 p.2) e).writeBuffer = e.writeBuffer ∧
      (edits.foldl (fun acc p => setOption acc p.1 p.2) e).optionBuffer = edits ∧
      (onProtocolStart (edits.foldl (fun acc p => setOption acc p.1 p.2) e)).stream
        = e.stream ++ e.writeBuffer.map (fun l => l ++ "\n")
            ++ edits.map (fun p => sendOptionCmd p.1 p.2 ++ "\n") ∧
      (onProtocolStart (edits.foldl (fun acc p => setOption acc p.1 p.2) e)).optionBuffer
        = [] ∧
      (onProtocolStart (edits.foldl (fun acc p => setOption acc p.1 p.2) e)).options
        = edits.foldl (fun os p => setOptionValue os p.1 p.2) e.options)) :=
  setOption_deferred
    { sampleEngine with
        state := PState.Starting
        pinging := false
        writeBuffer := ["init"]
        optionBuffer := [] }
    [("Hash", "128")] rfl rfl
    (fun p hp => by
      obtain rfl : p = ("Hash", "128") := List.mem_singleton.mp hp
      exact ⟨sampleOption, rfl, rfl⟩)

/-! ### Claim C7: the session id counter -/

theorem runIds_lowerBound (es : List SessionEv) : ∀ (c : Int),
    SessionEv.destruct ∉ es → ∀ x ∈ runIds c es, c ≤ x := by
  induction es with
  | nil => intro c _ x hx; simp [runIds] at hx
  | cons ev es ih =>
    intro c h x hx
    cases ev with
    | destruct => exact absurd (List.mem_cons_self _ _) h
    | construct =>
      rw [runIds] at hx
      have htl : SessionEv.destruct ∉ es := fun hm => h (List.mem_cons_of_mem _ hm)
      rcases List.mem_cons.mp hx with rfl | hx2
      · exact le_refl x
      · have := ih (c + 1) htl x hx2
        linarith

/-- C7 counterexample: construct a session, destroy it, construct another.
The destructor decrements the process-wide counter (`--m_count`,
chessengine.cpp line 50), so both constructions are assigned id 0: the
later-constructed session's id is not strictly greater, and the value 0 is
assigned to two sessions within the process lifetime. -/
theorem sessionId_reused :
    runIds 0 [SessionEv.construct, SessionEv.destruct, SessionEv.construct]
      = [0, 0] ∧
    ¬ List.Pairwise (fun a b => a < b)
        (runIds 0 [SessionEv.construct, SessionEv.destruct, SessionEv.construct]) := by
  refine ⟨rfl, fun hp => ?_⟩
  have h00 : List.Pairwise (fun a b : Int => a < b) [0, 0] := hp
  have := (List.pairwise_cons.mp h00).1 0 (by simp)
  exact absurd this (by norm_num)

/-- C7 amended: among sessions constructed with no destruction in between,
later-assigned ids are strictly greater and no id is assigned twice
(pairwise strictly increasing); once a session is destroyed, the counter
is decremented and an id value can be reassigned. -/
theorem sessionId_monotone (es : List SessionEv) (c : Int)
    (h : SessionEv.destruct ∉ es) :
    List.Pairwise (fun a b => a < b) (runIds c es) := by
  revert h
  induction es generalizing c with
  | nil => intro _; simp [runIds]
  | cons ev es ih =>
    intro h
    cases ev with
    | destruct => exact absurd (List.mem_cons_self _ _) h
    | construct =>
      have htl : SessionEv.destruct ∉ es := fun hm => h (List.mem_cons_of_mem _ hm)
      rw [runIds]
      refine List.Pairwise.cons ?_ (ih (c + 1) htl)
      intro x hx
      have := runIds_lowerBound es (c + 1) htl x hx
      linarith

/-- Witness for the amended C7: three constructions with no destruction. -/
theorem sessionId_monotone_witness :
    List.Pairwise (fun a b => a < b)
      (runIds 0 [SessionEv.construct, SessionEv.construct, SessionEv.construct]) :=
  sessionId_monotone
    [SessionEv.construct, SessionEv.construct, SessionEv.construct] 0 (by decide)

/-! ### Claims C6 and C9: Crazyhouse hands and notation -/

namespace Crazyhouse

theorem handPieceType_promoted (t : Nat) (h1 : 7 ≤ t) (h2 : t ≤ 10) :
    handPieceType t = Pawn := by
  simp [handPieceType, h1, h2]

theorem Side.opp_ne (s : Side) : s.opp ≠ s := by
  cases s <;> simp [Side.opp]

/-- C6 counterexample: capturing the promoted queen (a pawn promoted to a
queen — the only promoted-queen object Crazyhouse has) puts a pawn, not a
knight and not a queen, into the capturing side's hand: white's knight
count stays 0 where the claim's scenario demands it become 1. -/
theorem promotedQueen_capture_gains_pawn :
    (vMakeMove zhSample 1 2).hand Side.white Knight = 0 ∧
    (vMakeMove zhSample 1 2).hand Side.white Queen = 0 ∧
    (vMakeMove zhSample 1 2).hand Side.white Pawn = 1 ∧
    (vMakeMove zhSample 1 2).hand Side.black Pawn = 0 :=
  ⟨rfl, rfl, rfl, rfl⟩

/-- C6 amended: in Crazyhouse every promoted piece was promoted from a
pawn, so capturing a promoted piece adds one pawn — its pre-promotion base
type, never the promoted type — to the capturing side's hand, leaving the
opponent's hand and every other hand count unchanged; undoing that capture
removes exactly the one pawn from the hand and restores the original
promoted piece on the board. -/
theorem capture_demotes_to_pawn (b : ZhBoard) (src tgt : Nat)
    (ms cs : Side) (mt ct : Nat)
    (hsrc : b.pieceAt src = some (ms, mt))
    (htgt : b.pieceAt tgt = some (cs, ct))
    (hne : src ≠ tgt)
    (hp1 : 7 ≤ ct) (hp2 : ct ≤ 10) :
    (vMakeMove b src tgt).hand ms Pawn = b.hand ms Pawn + 1 ∧
    (∀ t, t ≠ Pawn → (vMakeMove b src tgt).hand ms t = b.hand ms t) ∧
    (∀ t, (vMakeMove b src tgt).hand ms.opp t = b.hand ms.opp t) ∧
    (vMakeMove b src tgt).pieceAt tgt = some (ms, mt) ∧
    (vMakeMove b src tgt).pieceAt src = none ∧
    (∀ s t,
      (vUndoMove (vMakeMove b src tgt) src tgt (ms, mt) (some (cs, ct))).hand s t
        = b.hand s t) ∧
    (vUndoMove (vMakeMove b src tgt) src tgt (ms, mt) (some (cs, ct))).pieceAt tgt
      = some (cs, ct) ∧
    (vUndoMove (vMakeMove b src tgt) src tgt (ms, mt) (some (cs, ct))).pieceAt src
      = some (ms, mt) := by
  have hhp : handPieceType ct = Pawn := handPieceType_promoted ct hp1 hp2
  have hts : ¬ tgt = src := fun hh => hne hh.symm
  have hmake : vMakeMove b src tgt =
      { b with
        hand := fun s2 t2 =>
          if s2 = ms ∧ t2 = Pawn then b.hand s2 t2 + 1 else b.hand s2 t2
        pieceAt := fun sq =>
          if sq = tgt then some (ms, mt)
          else if sq = src then none
          else b.pieceAt sq } := by
    simp [vMakeMove, hsrc, htgt, addToHand, hhp]
  rw [hmake]
  refine ⟨by simp, ?_, ?_, by simp, by simp [hne], ?_, ?_, ?_⟩
  · intro t ht
    simp [ht]
  · intro t
    simp [Side.opp_ne ms]
  · intro s t
    by_cases hc : s = ms ∧ t = Pawn
    · simp [vUndoMove, removeFromHand, hhp, hc]
    · simp [vUndoMove, removeFromHand, hhp, hc]
  · simp [vUndoMove, removeFromHand, hts]
  · simp [vUndoMove, removeFromHand]

/-- Witness for the amended C6 at the concrete promoted-queen capture. -/
theorem capture_demotes_to_pawn_witness :
    ((vMakeMove zhSample 1 2).hand Side.white Pawn = zhSample.hand Side.white Pawn + 1 ∧
     (∀ t, t ≠ Pawn →
       (vMakeMove zhSample 1 2).hand Side.white t = zhSample.hand Side.white t) ∧
     (∀ t, (vMakeMove zhSample 1 2).hand Side.white.opp t
       = zhSample.hand Side.white.opp t) ∧
     (vMakeMove zhSample 1 2).pieceAt 2 = some (Side.white, Rook) ∧
     (vMakeMove zhSample 1 2).pieceAt 1 = none ∧
     (∀ s t,
       (vUndoMove (vMakeMove zhSample 1 2) 1 2 (Side.white, Rook)
           (some (Side.black, PromotedQueen))).hand s t = zhSample.hand s t) ∧
     (vUndoMove (vMakeMove zhSample 1 2) 1 2 (Side.white, Rook)
         (some (Side.black, PromotedQueen))).pieceAt 2
       = some (Side.black, PromotedQueen) ∧
     (vUndoMove (vMakeMove zhSample 1 2) 1 2 (Side.white, Rook)
         (some (Side.black, PromotedQueen))).pieceAt 1
       = some (Side.white, Rook)) :=
  capture_demotes_to_pawn zhSample 1 2 Side.white Side.black Rook PromotedQueen
    rfl rfl (by decide) (by decide) (by decide)

theorem fileOfChar_fileChar : ∀ f, f < 8 → fileOfChar (fileChar f) = some f := by
  decide

theorem rankOfChar_rankChar : ∀ r, r < 8 → rankOfChar (rankChar r) = some r := by
  decide

theorem rankChar_ne_at : ∀ r, r < 8 → ¬ rankChar r = '@' := by
  decide

theorem dropOfChar_dropChar : ∀ q, q < 6 → 1 ≤ q →
    dropOfChar (dropChar q) = some q := by
  decide

theorem promoOfChar_promoChar : ∀ q, q < 6 → 2 ≤ q →
    promoOfChar (promoChar q) = some q := by
  decide

theorem parseSquare_squareChars (sq : Nat) (h1 : 1 ≤ sq) (h2 : sq ≤ 64) :
    parseSquare (fileChar ((sq - 1) % 8)) (rankChar ((sq - 1) / 8)) = some sq := by
  have hf : (sq - 1) % 8 < 8 := Nat.mod_lt _ (by norm_num)
  have hr : (sq - 1) / 8 < 8 := by omega
  have harith : 1 + (sq - 1) % 8 + 8 * ((sq - 1) / 8) = sq := by omega
  simp [parseSquare, fileOfChar_fileChar _ hf, rankOfChar_rankChar _ hr, harith]

theorem moveFromLan_lanMove (m : Move) (h : WellFormedMove m) :
    moveFromLanString (lanMoveString m) = some m := by
  show moveFromLanChars (lanMoveChars m) = some m
  rcases h with ⟨h0, ht1, ht64, hq1, hq5⟩ | ⟨hs1, hs64, ht1, ht64, hp⟩
  · rw [lanMoveChars, if_pos h0]
    simp only [squareChars, List.cons_append, List.nil_append]
    simp only [moveFromLanChars]
    simp only [if_true]
    rw [dropOfChar_dropChar m.promotion (by omega) hq1,
        parseSquare_squareChars m.targetSquare ht1 ht64]
    rw [← h0]
  · have hs0 : ¬ m.sourceSquare = 0 := by omega
    have hrlt : (m.sourceSquare - 1) / 8 < 8 := by omega
    rcases hp with hp0 | ⟨hp2, hp5⟩
    · rw [lanMoveChars, if_neg hs0, if_pos hp0, List.append_nil]
      simp only [squareChars, List.cons_append, List.nil_append]
      simp only [moveFromLanChars]
      rw [if_neg (rankChar_ne_at _ hrlt)]
      rw [parseSquare_squareChars m.sourceSquare hs1 hs64,
          parseSquare_squareChars m.targetSquare ht1 ht64]
      rw [← hp0]
    · have hpn0 : ¬ m.promotion = 0 := by omega
      rw [lanMoveChars, if_neg hs0, if_neg hpn0]
      simp only [squareChars, List.cons_append, List.nil_append]
      simp only [moveFromLanChars]
      rw [parseSquare_squareChars m.sourceSquare hs1 hs64,
          parseSquare_squareChars m.targetSquare ht1 ht64,
          promoOfChar_promoChar m.promotion (by omega) hp2]

/-- C9: notation round-trip — for every well-formed move (a superset of
the legal moves of any reachable position), decoding the encoded move text
succeeds and yields the same move; hence the encoding is injective over
well-formed moves (two distinct moves never encode identically), and it is
total by construction. -/
theorem lan_roundTrip (m m2 : Move)
    (h : WellFormedMove m) (h2 : WellFormedMove m2) :
    moveFromLanString (lanMoveString m) = some m ∧
    (lanMoveString m = lanMoveString m2 → m = m2) := by
  refine ⟨moveFromLan_lanMove m h, fun heq => ?_⟩
  have r1 := moveFromLan_lanMove m h
  have r2 := moveFromLan_lanMove m2 h2
  rw [heq, r2] at r1
  exact (Option.some.inj r1).symm

/-- Witness for C9: the drop "N@f6" and the pawn move "e2e4". -/
theorem lan_roundTrip_witness :
    (moveFromLanString (lanMoveString ⟨0, 46, 2⟩) = some ⟨0, 46, 2⟩ ∧
     (lanMoveString ⟨0, 46, 2⟩ = lanMoveString ⟨13, 29, 0⟩ →
       (⟨0, 46, 2⟩ : Move) = ⟨13, 29, 0⟩)) :=
  lan_roundTrip ⟨0, 46, 2⟩ ⟨13, 29, 0⟩ (Or.inl (by decide)) (Or.inr (by decide))

end Crazyhouse

end CuteChess
